import Mathlib

/-!
Verification development for the ao compute-unit (CU) evaluation pipeline
and the HyperBEAM HTTP codec.

The JavaScript sources are shallowly embedded as executable Lean
definitions:

* `src/connect/src/client/hb-encode.js`  — the wire codec (`hbEncode`,
  `partition`, `encode`);
* `src/servers/cu/src/domain/client/worker.js` — the execution worker
  (`mergeOutput`, the invocation stage of `evaluateWith`, and the module
  resolution chain of `loadInstance`);
* `src/servers/cu/src/domain/client/wasm.js` — the memory checkpointer
  (`hashWasmMemory`) and limit predicates;
* the evaluator driver (`evaluate.js`), which is exercised by
  `src/servers/cu/src/domain/lib/evaluate.test.js` but whose source is not
  part of this tree, is modelled from the specification (§4.7).

Bytes are modelled as `Nat` values `< 256`; JavaScript machine integers do
not overflow in any of the embedded code paths.  SHA-256 is implemented
concretely (over `Nat` with explicit `% 2^32`) so that codec digests are
computable inside proofs.
-/

namespace AoSpec

/-! ## Byte-level utilities -/

/-- UTF-8 encoding of a single character (code point), as bytes. -/
def charUtf8 (c : Char) : List Nat :=
  let n := c.toNat
  if n < 0x80 then [n]
  else if n < 0x800 then
    [0xC0 ||| (n >>> 6), 0x80 ||| (n &&& 0x3F)]
  else if n < 0x10000 then
    [0xE0 ||| (n >>> 12), 0x80 ||| ((n >>> 6) &&& 0x3F), 0x80 ||| (n &&& 0x3F)]
  else
    [0xF0 ||| (n >>> 18), 0x80 ||| ((n >>> 12) &&& 0x3F),
     0x80 ||| ((n >>> 6) &&& 0x3F), 0x80 ||| (n &&& 0x3F)]

/-- UTF-8 encoding of a string, as bytes. -/
def utf8Bytes (s : String) : List Nat :=
  s.data.flatMap charUtf8

/-- Number of bytes in the UTF-8 encoding of a string
(the `byteLength` of `Buffer.from(s)` in the source). -/
def utf8Length (s : String) : Nat :=
  (utf8Bytes s).length

def hexDigit (n : Nat) : Char :=
  if n < 10 then Char.ofNat (48 + n) else Char.ofNat (87 + n)

/-- Lowercase hex rendering of a byte sequence
(`hash.digest('hex')` in the source). -/
def bytesToHex (bs : List Nat) : String :=
  String.mk (bs.flatMap (fun b => [hexDigit (b / 16), hexDigit (b % 16)]))

def base64Char (n : Nat) : Char :=
  if n < 26 then Char.ofNat (65 + n)
  else if n < 52 then Char.ofNat (97 + (n - 26))
  else if n < 62 then Char.ofNat (48 + (n - 52))
  else if n = 62 then '+'
  else '/'

def base64UrlChar (n : Nat) : Char :=
  if n < 26 then Char.ofNat (65 + n)
  else if n < 52 then Char.ofNat (97 + (n - 26))
  else if n < 62 then Char.ofNat (48 + (n - 52))
  else if n = 62 then '-'
  else '_'

/-- Core base64 grouping: 3 input bytes to 4 alphabet indices, with the
ragged tail producing 2 or 3 indices (padding handled by callers). -/
def base64Groups (f : Nat → Char) : List Nat → List Char
  | b1 :: b2 :: b3 :: rest =>
      f (b1 >>> 2) :: f (((b1 &&& 0x3) <<< 4) ||| (b2 >>> 4)) ::
      f (((b2 &&& 0xF) <<< 2) ||| (b3 >>> 6)) :: f (b3 &&& 0x3F) ::
      base64Groups f rest
  | [b1, b2] =>
      [f (b1 >>> 2), f (((b1 &&& 0x3) <<< 4) ||| (b2 >>> 4)),
       f ((b2 &&& 0xF) <<< 2)]
  | [b1] =>
      [f (b1 >>> 2), f ((b1 &&& 0x3) <<< 4)]
  | [] => []

/-- Standard base64 with `=` padding (`base64url.toBase64(...)` output). -/
def base64Std (bs : List Nat) : String :=
  let chars := base64Groups base64Char bs
  let pad := (4 - chars.length % 4) % 4
  String.mk (chars ++ List.replicate pad '=')

/-- URL-safe base64 without padding (the `base64url.encode(...)` output). -/
def base64Url (bs : List Nat) : String :=
  String.mk (base64Groups base64UrlChar bs)

/-! ## SHA-256 (executable, over `Nat` with explicit mod `2^32`) -/

def w32 (n : Nat) : Nat := n % 4294967296

def rotr32 (k x : Nat) : Nat :=
  w32 ((x >>> k) ||| (x <<< (32 - k)))

def sha256K : List Nat :=
  [1116352408, 1899447441, 3049323471, 3921009573, 961987163, 1508970993,
   2453635748, 2870763221, 3624381080, 310598401, 607225278, 1426881987,
   1925078388, 2162078206, 2614888103, 3248222580, 3835390401, 4022224774,
   264347078, 604807628, 770255983, 1249150122, 1555081692, 1996064986,
   2554220882, 2821834349, 2952996808, 3210313671, 3336571891, 3584528711,
   113926993, 338241895, 666307205, 773529912, 1294757372, 1396182291,
   1695183700, 1986661051, 2177026350, 2456956037, 2730485921, 2820302411,
   3259730800, 3345764771, 3516065817, 3600352804, 4094571909, 275423344,
   430227734, 506948616, 659060556, 883997877, 958139571, 1322822218,
   1537002063, 1747873779, 1955562222, 2024104815, 2227730452, 2361852424,
   2428436474, 2756734187, 3204031479, 3329325298]

def sha256Init : List Nat :=
  [1779033703, 3144134277, 1013904242, 2773480762,
   1359893119, 2600822924, 528734635, 1541459225]

/-- SHA-256 message padding: append `0x80`, zeros, and the 64-bit
big-endian bit length, to a multiple of 64 bytes. -/
def sha256Pad (msg : List Nat) : List Nat :=
  let len := msg.length
  let zeros := (55 + 64 - len % 64) % 64
  let bitLen := len * 8
  msg ++ [0x80] ++ List.replicate zeros 0 ++
    [w32 (bitLen >>> 56) % 256, (bitLen >>> 48) % 256, (bitLen >>> 40) % 256,
     (bitLen >>> 32) % 256, (bitLen >>> 24) % 256, (bitLen >>> 16) % 256,
     (bitLen >>> 8) % 256, bitLen % 256]

/-- Split a padded message into 32-bit big-endian words. -/
def bytesToWords : List Nat → List Nat
  | b1 :: b2 :: b3 :: b4 :: rest =>
      (((b1 <<< 24) ||| (b2 <<< 16)) ||| ((b3 <<< 8) ||| b4)) :: bytesToWords rest
  | _ => []

/-- Extend 16 block words to the 64-word message schedule.
`acc` holds the schedule so far, in reverse. -/
def sha256Extend (acc : List Nat) : Nat → List Nat
  | 0 => acc.reverse
  | k + 1 =>
      let w15 := acc.getD 14 0
      let w2 := acc.getD 1 0
      let w16 := acc.getD 15 0
      let w7 := acc.getD 6 0
      let s0 := (rotr32 7 w15 ^^^ rotr32 18 w15) ^^^ (w15 >>> 3)
      let s1 := (rotr32 17 w2 ^^^ rotr32 19 w2) ^^^ (w2 >>> 10)
      sha256Extend (w32 (w16 + s0 + w7 + s1) :: acc) k

/-- One round of the SHA-256 compression function. -/
def sha256Round (st : List Nat) (kw : Nat × Nat) : List Nat :=
  match st with
  | [a, b, c, d, e, f, g, h] =>
      let s1 := (rotr32 6 e ^^^ rotr32 11 e) ^^^ rotr32 25 e
      let ch := (e &&& f) ^^^ ((4294967295 - e) &&& g)
      let temp1 := w32 (h + s1 + ch + kw.1 + kw.2)
      let s0 := (rotr32 2 a ^^^ rotr32 13 a) ^^^ rotr32 22 a
      let maj := ((a &&& b) ^^^ (a &&& c)) ^^^ (b &&& c)
      let temp2 := w32 (s0 + maj)
      [w32 (temp1 + temp2), a, b, c, w32 (d + temp1), e, f, g]
  | st => st

/-- Compress one 16-word block into the running hash state. -/
def sha256Block (h : List Nat) (block : List Nat) : List Nat :=
  let ws := sha256Extend block.reverse 48
  let st := (sha256K.zip ws).foldl sha256Round h
  (h.zip st).map (fun p => w32 (p.1 + p.2))

def chunkWords : List Nat → List (List Nat)
  | w1 :: w2 :: w3 :: w4 :: w5 :: w6 :: w7 :: w8 ::
    w9 :: w10 :: w11 :: w12 :: w13 :: w14 :: w15 :: w16 :: rest =>
      [w1, w2, w3, w4, w5, w6, w7, w8, w9, w10, w11, w12, w13, w14, w15, w16]
        :: chunkWords rest
  | _ => []

/-- SHA-256 digest of a byte sequence, as 32 bytes. -/
def sha256 (msg : List Nat) : List Nat :=
  let blocks := chunkWords (bytesToWords (sha256Pad msg))
  let h := blocks.foldl sha256Block sha256Init
  h.flatMap (fun word => [w32 (word >>> 24) % 256, (word >>> 16) % 256, (word >>> 8) % 256, word % 256])

/-! ## Execution worker (`src/servers/cu/src/domain/client/worker.js`)

`Mem` is a type parameter: the worker treats the linear-memory blob as an
atom.  Dynamic JavaScript values appearing in the untyped output fields
(`Error`, `Messages`, `Spawns`, `Output`) are modelled by `JsVal`; an
absent (`undefined`/`null`) field is `Option.none`, matching ramda's
`pathOr`/`propOr` nil checks. -/

inductive JsVal where
  | str (s : String)
  | num (n : Int)
  | boolean (b : Bool)
  | obj (kvs : List (String × JsVal))
  deriving Repr

/-- JavaScript truthiness of a (non-nullish) value. -/
def JsVal.truthy : JsVal → Bool
  | .str s => s ≠ ""
  | .num n => n ≠ 0
  | .boolean b => b
  | .obj _ => true

/-- The raw object returned by (or thrown object wrapped around) a Wasm
handler invocation, before normalisation by `mergeOutput`. -/
structure RawOutput (Mem : Type) where
  Memory : Option Mem := none
  Error : Option JsVal := none
  Messages : Option (List JsVal) := none
  Spawns : Option (List JsVal) := none
  Output : Option JsVal := none
  GasUsed : Option Nat := none
  deriving Repr

/-- The normalised `EvaluationOutput` produced by `mergeOutput`. -/
structure EvaluationOutput (Mem : Type) where
  Memory : Option Mem
  Error : Option JsVal
  Messages : List JsVal
  Spawns : List JsVal
  Output : JsVal
  GasUsed : Option Nat
  deriving Repr

variable {Mem : Type}

/-- The `cond` applied to the `Output` field by `mergeOutput`: strings and
objects pass through, numbers are converted with `String(...)`,
anything else is passed through by the `T` branch. -/
def normalizeOutput : JsVal → JsVal
  | .num n => .str (toString n)
  | v => v

/-- Function `mergeOutput(prevMemory)` from `worker.js` (lines 220-250): normalise a
raw invocation output.  `defaultTo({})` maps an absent raw output to the
empty object; the `Memory` branch is `ifElse(pathOr(undefined, ['Error']),
always(prevMemory), propOr(prevMemory, 'Memory'))`, whose condition is the
JavaScript *truthiness* of the `Error` field. -/
def mergeOutput (prevMemory : Option Mem) (raw : Option (RawOutput Mem)) :
    EvaluationOutput Mem :=
  let r := raw.getD {}
  { Memory := if (r.Error.map JsVal.truthy).getD false then prevMemory
              else match r.Memory with
                   | some m => some m
                   | none => prevMemory
    Error := r.Error
    Messages := r.Messages.getD []
    Spawns := r.Spawns.getD []
    Output := normalizeOutput (r.Output.getD (.str ""))
    GasUsed := r.GasUsed }

/-- The invocation stage of `evaluateWith` (worker.js lines 279-297): the
handler call either returns a raw output or throws; a thrown value `err`
is mapped by the `bichain` to the resolved object `assocPath(['Error'],
err, {})`, and the result is passed to `mergeOutput(Memory)`.  The result
type is `EvaluationOutput` (not an `Except`): the invocation stage never
propagates the handler's throw. -/
def workerEvaluate (Memory : Option Mem)
    (invocation : Except JsVal (Option (RawOutput Mem))) :
    EvaluationOutput Mem :=
  match invocation with
  | .error err => mergeOutput Memory (some { Error := some err })
  | .ok raw => mergeOutput Memory raw

/-! ## Memory checkpointer (`src/servers/cu/src/domain/client/wasm.js`)

The gunzip transformer is an external zlib stream; it enters the model as
an uninterpreted function parameter.  The pass-through / gunzip selection,
the encoding guard, and the SHA-256 hex digest are translated from the
source. -/

/-- Function `hashWasmMemory(memoryStream, encoding)` from `wasm.js` (lines 14-34).
`encoding` is a JavaScript string parameter (absent = `none`); the guard
`if (encoding && encoding !== 'gzip') throw ...` tests truthiness, so the
empty string passes the guard; then `encoding === 'gzip'` selects the
gunzip transformer, anything else the pass-through. -/
def hashWasmMemory (gunzip : List Nat → List Nat)
    (memoryStream : List Nat) (encoding : Option String) :
    Except String String :=
  if (encoding.map (fun e => e != "")).getD false && encoding != some "gzip" then
    .error "Only GZIP encoding of Memory is supported for Process Checkpoints"
  else
    .ok (bytesToHex (sha256
      (if encoding = some "gzip" then gunzip memoryStream else memoryStream)))

/-- Predicate `doesExceedModuleMaxMemoryWith` from `wasm.js` (lines 36-38). -/
def doesExceedModuleMaxMemoryWith (PROCESS_WASM_MEMORY_MAX_LIMIT : Nat)
    (limit : Nat) : Bool :=
  limit > PROCESS_WASM_MEMORY_MAX_LIMIT

/-- Predicate `doesExceedModuleMaxComputeWith` from `wasm.js` (lines 40-42). -/
def doesExceedModuleMaxComputeWith (PROCESS_WASM_COMPUTE_MAX_LIMIT : Nat)
    (limit : Nat) : Bool :=
  limit > PROCESS_WASM_COMPUTE_MAX_LIMIT

/-! ## Module loader (`worker.js` lines 129-204)

The module-resolution chain of `loadInstance`:
`maybeCachedModule` (in-memory LRU), then `maybeStoredBinary` (on-disk
gzip file, gunzipped and streaming-compiled), then `loadTransaction`
(gateway fetch, response body tee'd to a gzip-to-disk sink and to the
streaming compiler).  `WebAssembly.compileStreaming`, gzip and gunzip are
external primitives and enter the model as uninterpreted function
parameters; `Module` (a `WebAssembly.Module`) is a type parameter.
Streams are modelled by the byte sequences they carry. -/

inductive LoadError where
  | fetchError (status : Nat) (body : String)
  | compileError
  deriving Repr, DecidableEq

/-- Which source satisfied the load (for stating resolution order). -/
inductive LoadSource where
  | cachedModule
  | storedBinary
  | gateway
  deriving Repr, DecidableEq

/-- The state touched by module resolution: the in-memory compiled-module
cache and the on-disk binary store (`<DIR>/<moduleId>.wasm.gz` contents,
keyed by module id). -/
structure LoaderState (Module : Type) where
  moduleCache : List (String × Module)
  disk : List (String × List Nat)

def lookupA {β : Type} (k : String) : List (String × β) → Option β
  | [] => none
  | (k', v) :: rest => if k' = k then some v else lookupA k rest

def setA {β : Type} (k : String) (v : β) : List (String × β) → List (String × β)
  | [] => [(k, v)]
  | (k', v') :: rest => if k' = k then (k, v) :: rest else (k', v') :: setA k v rest

/-- External collaborators of the loader. -/
structure LoaderEnv (Module : Type) where
  /-- Collaborator `fetch(url)`: HTTP status and response body bytes for a URL. -/
  httpGet : String → Nat × List Nat
  /-- Collaborator `WebAssembly.compileStreaming` on a byte stream. -/
  compile : List Nat → Except Unit Module
  /-- zlib `createGzip` as a function on the streamed bytes. -/
  gzipF : List Nat → List Nat
  /-- zlib `createGunzip` as a function on the streamed bytes. -/
  gunzipF : List Nat → List Nat
  GATEWAY_URL : String
  /-- When true, the gzip-to-disk sink of `writeWasmFile` fails; the
  failure is caught and logged (`Skipping...`), leaving the disk
  unchanged while the load proceeds. -/
  diskWriteFails : Bool := false

variable {Module : Type}

/-- Function `streamTransactionDataWith` (worker.js lines 63-79): fetch
`<GATEWAY_URL>/raw/<id>`; a non-`res.ok` (outside 200-299) response
throws. -/
def streamTransactionData (env : LoaderEnv Module) (id : String) :
    Except LoadError (List Nat) :=
  let (status, body) := env.httpGet (env.GATEWAY_URL ++ "/raw/" ++ id)
  if 200 ≤ status ∧ status ≤ 299 then .ok body
  else .error (.fetchError status (bytesToHex body))

/-- Function `loadTransaction` (worker.js lines 152-169): tee the gateway response
body into `writeWasmFile` (gzip to disk, failures non-fatal) and
`WebAssembly.compileStreaming`. -/
def loadTransaction (env : LoaderEnv Module) (st : LoaderState Module)
    (moduleId : String) : Except LoadError (Module × LoaderState Module) :=
  match streamTransactionData env moduleId with
  | .error e => .error e
  | .ok body =>
      let disk' := if env.diskWriteFails then st.disk
                   else setA moduleId (env.gzipF body) st.disk
      match env.compile body with
      | .error _ => .error .compileError
      | .ok m => .ok (m, { st with disk := disk' })

/-- Function `maybeStoredBinary` (worker.js lines 138-150): `readWasmFile` opens
`<DIR>/<moduleId>.wasm.gz` and gunzips it; any failure (missing file or
failed streaming compile) is mapped back to the rejected branch. -/
def maybeStoredBinary (env : LoaderEnv Module) (st : LoaderState Module)
    (moduleId : String) : Option Module :=
  match lookupA moduleId st.disk with
  | none => none
  | some gz =>
      match env.compile (env.gunzipF gz) with
      | .error _ => none
      | .ok m => some m

/-- The module-resolution portion of `loadInstance` (worker.js lines
171-194): `maybeCachedModule` falls back to `maybeStoredBinary`, which
falls back to `loadTransaction`; on either fallback path the compiled
`WebAssembly.Module` is cached in memory for next time.  Also returns
which source satisfied the load. -/
def resolveModule (env : LoaderEnv Module) (st : LoaderState Module)
    (moduleId : String) :
    Except LoadError (Module × LoaderState Module × LoadSource) :=
  match lookupA moduleId st.moduleCache with
  | some m => .ok (m, st, .cachedModule)
  | none =>
      match maybeStoredBinary env st moduleId with
      | some m =>
          .ok (m, { st with moduleCache := setA moduleId m st.moduleCache },
               .storedBinary)
      | none =>
          match loadTransaction env st moduleId with
          | .error e => .error e
          | .ok (m, st') =>
              .ok (m, { st' with moduleCache := setA moduleId m st'.moduleCache },
                   .gateway)

/-! ## Evaluator driver

Modelled from the spec: the evaluator source (`evaluate.js`) is not part
of this tree — only its test suite
(`src/servers/cu/src/domain/lib/evaluate.test.js`) is — so the driver is
modelled from specification §4.7 (steps 1-8) and §3 invariants 4-5.  The
per-message Wasm invocation reuses the worker embedding above
(`workerEvaluate`); `findMessageHashBefore` and the loaded evaluator are
dependency-injected collaborators and enter the model as function
parameters. -/

/-- One element of the evaluator's lazy `messages` sequence. -/
structure MsgEnv (Mem : Type) where
  ordinate : Nat
  cron : Option String := none
  deepHash : Option String := none
  noSave : Bool := false
  Timestamp : Nat
  blockHeight : Nat
  Tags : List (String × String) := []
  deriving Repr

/-- The resumable position after the last evaluated message (§3 Cursor). -/
structure Cursor where
  timestamp : Nat
  blockHeight : Nat
  ordinate : Nat
  cron : Option String
  deriving Repr, DecidableEq

/-- Counters `ctx.stats.messages`. -/
structure MsgStats where
  scheduled : Nat := 0
  cron : Nat := 0
  error : Nat := 0
  deriving Repr, DecidableEq

/-- One `saveEvaluation` call record (§4.7 step 7). -/
structure SaveRecord (Mem : Type) where
  ordinate : Nat
  timestamp : Nat
  blockHeight : Nat
  cron : Option String
  output : EvaluationOutput Mem
  deriving Repr

/-- Evaluator state threaded through the fold over the message stream. -/
structure EvalState (Mem : Type) where
  Memory : Option Mem
  stats : MsgStats := {}
  /-- Keys `(cron, timestamp, ordinate)` seen during this run. -/
  seenCron : List (String × Nat × Nat) := []
  /-- Calls to `saveEvaluation` issued so far, in order. -/
  saves : List (SaveRecord Mem) := []
  last : Option Cursor := none
  /-- The folded `ctx.result` output of the last evaluated message. -/
  output : Option (EvaluationOutput Mem) := none
  deriving Repr

/-- What happened to one consumed message (for stating the claims). -/
inductive StepInfo (Mem : Type) where
  /-- Skipped: `findMessageHashBefore` found this `deepHash` (step 2a). -/
  | skippedDeepHash (h : String)
  /-- Skipped: duplicate `(cron, timestamp, ordinate)` key (step 2b). -/
  | skippedCron (key : String × Nat × Nat)
  /-- Invoked; `saved` records whether `saveEvaluation` was called. -/
  | evaluated (out : EvaluationOutput Mem) (saved : Bool)
  deriving Repr

def StepInfo.isEvaluated : StepInfo Mem → Bool
  | .evaluated _ _ => true
  | _ => false

/-- Modelled from the spec: §4.7 step 3 — remove privileged tags (`From`,
`Owner`) from `message.Tags` before invocation. -/
def sanitizeTags (tags : List (String × String)) : List (String × String) :=
  tags.filter (fun t => t.1 ≠ "From" && t.1 ≠ "Owner")

/-- The `(cron, timestamp, ordinate)` dedup key of a cron message. -/
def MsgEnv.cronKey (m : MsgEnv Mem) : Option (String × Nat × Nat) :=
  m.cron.map (fun c => (c, m.Timestamp, m.ordinate))

/-- Modelled from the spec: §4.7 steps 3-8 — sanitise tags, invoke via
the execution worker using the current Memory and fold the output
(step 5 is the worker's Error-suppression rule, already applied inside
`workerEvaluate`), bump the error stat, persist iff the message has no
`noSave` marker and the output no `Error`, and advance the cursor. -/
def evalStepExec
    (handler : Option Mem → MsgEnv Mem → Except JsVal (Option (RawOutput Mem)))
    (s2 : EvalState Mem) (m : MsgEnv Mem) : EvalState Mem × StepInfo Mem :=
  let m' := { m with Tags := sanitizeTags m.Tags }
  let out := workerEvaluate s2.Memory (handler s2.Memory m')
  let stats2 := if out.Error.isSome
    then { s2.stats with error := s2.stats.error + 1 }
    else s2.stats
  let saved := !m.noSave && out.Error.isNone
  let saves' := if saved
    then s2.saves ++ [{ ordinate := m.ordinate, timestamp := m.Timestamp,
                        blockHeight := m.blockHeight, cron := m.cron,
                        output := out }]
    else s2.saves
  ({ s2 with
      Memory := out.Memory
      stats := stats2
      saves := saves'
      last := some { timestamp := m.Timestamp, blockHeight := m.blockHeight,
                     ordinate := m.ordinate, cron := m.cron }
      output := some out },
   .evaluated out saved)

/-- Modelled from the spec: §4.7 step 2b — cron dedup within this run:
skip a cron message whose `(cron, timestamp, ordinate)` key was already
seen, otherwise record the key and proceed. -/
def evalStepCron
    (handler : Option Mem → MsgEnv Mem → Except JsVal (Option (RawOutput Mem)))
    (s1 : EvalState Mem) (m : MsgEnv Mem) : EvalState Mem × StepInfo Mem :=
  match m.cronKey with
  | some k =>
      if k ∈ s1.seenCron then (s1, .skippedCron k)
      else evalStepExec handler { s1 with seenCron := k :: s1.seenCron } m
  | none => evalStepExec handler s1 m

/-- Modelled from the spec: §4.7 steps 1-8 for a single consumed message.
`hashFound h` is `findMessageHashBefore(h, processId, from)` succeeding;
step 1 bumps the cron or scheduled stat, step 2a skips a message whose
`deepHash` was already persisted. -/
def evalStep (hashFound : String → Bool)
    (handler : Option Mem → MsgEnv Mem → Except JsVal (Option (RawOutput Mem)))
    (s : EvalState Mem) (m : MsgEnv Mem) : EvalState Mem × StepInfo Mem :=
  let s1 := { s with stats := if m.cron.isSome
    then { s.stats with cron := s.stats.cron + 1 }
    else { s.stats with scheduled := s.stats.scheduled + 1 } }
  match m.deepHash with
  | some h => if hashFound h then (s1, .skippedDeepHash h)
              else evalStepCron handler s1 m
  | none => evalStepCron handler s1 m

/-- Modelled from the spec: the evaluator's fold over the ordered message
stream (§4.7), also returning the per-message trace. -/
def evalRun (hashFound : String → Bool)
    (handler : Option Mem → MsgEnv Mem → Except JsVal (Option (RawOutput Mem))) :
    EvalState Mem → List (MsgEnv Mem) → EvalState Mem × List (StepInfo Mem)
  | s, [] => (s, [])
  | s, m :: ms =>
      let step := evalStep hashFound handler s m
      let rest := evalRun hashFound handler step.1 ms
      (rest.1, step.2 :: rest.2)

/-! ## Wire codec (`src/connect/src/client/hb-encode.js`) -/

/-- JavaScript values handled by the codec.  `float` carries its
JavaScript decimal rendering (the result of `${value}`); `sym` is a
`Symbol`, whose `description` may be absent. -/
inductive HVal where
  | nullv
  | str (s : String)
  | int (n : Int)
  | float (rendering : String)
  | sym (description : Option String)
  | bytes (bs : List Nat)
  | boolean (b : Bool)
  | arr (xs : List HVal)
  | obj (kvs : List (String × HVal))
  deriving Repr

/-- A flattened leaf value: a string or a byte blob. -/
inductive FlatV where
  | str (s : String)
  | bytes (bs : List Nat)
  deriving Repr, DecidableEq

/-- JavaScript truthiness of a flattened value (`if (value)` in `store`):
the empty string is falsy, a typed-array object is always truthy. -/
def FlatV.truthy : FlatV → Bool
  | .str s => s ≠ ""
  | .bytes _ => true

/-- Length `Buffer.from(value).byteLength`: UTF-8 length for strings, raw length
for byte blobs. -/
def FlatV.byteLength : FlatV → Nat
  | .str s => utf8Length s
  | .bytes bs => bs.length

/-- Function `hbEncodeValue` (hb-encode.js lines 49-74): a `[type, value]` pair,
either component possibly `undefined`.  Objects, non-empty arrays,
booleans and nullish values reach the final `throw`. -/
def hbEncodeValue : HVal → Except String (Option String × Option FlatV)
  | .bytes bs =>
      -- zero-length bytes re-enter as the empty string, i.e. `empty-binary`
      if bs.length = 0 then .ok (none, some (.str "empty-binary"))
      else .ok (none, some (.bytes bs))
  | .str s =>
      if s.length = 0 then .ok (none, some (.str "empty-binary"))
      else .ok (none, some (.str s))
  | .arr [] => .ok (some "empty-list", none)
  | .int n => .ok (some "integer", some (.str (toString n)))
  | .float rendering => .ok (some "float", some (.str rendering))
  | .sym d => .ok (some "atom", d.map .str)
  | _ => .error "Cannot encode value"

/-- The accumulator of `hbEncode`'s reduce: `[encoded, types]`. -/
structure FlatAcc where
  encoded : List (String × FlatV) := []
  types : List (String × String) := []

/-- Function `store` (hb-encode.js lines 76-81), with JavaScript truthiness for
both guards (`type` is always a non-empty string when present). -/
def store (fullK curK : String) (dest : FlatAcc)
    (tv : Option String × Option FlatV) : FlatAcc :=
  let dest1 := match tv.1 with
    | some t => { dest with types := setA curK t dest.types }
    | none => dest
  match tv.2 with
  | some v => if v.truthy then { dest1 with encoded := setA fullK v dest1.encoded }
              else dest1
  | none => dest1

/-- Semantics of `Object.assign(dst, src)`: fold upserts of `src` into `dst` (existing
keys keep their position, new keys append). -/
def assignAll (dst src : List (String × FlatV)) : List (String × FlatV) :=
  src.foldl (fun d kv => setA kv.1 kv.2 d) dst

/-- Lowercasing `toLowerCase()` over the characters of a string (ASCII case mapping;
the embedded keys are ASCII). -/
def strToLower (s : String) : String :=
  String.mk (s.data.map Char.toLower)

/-- The flattened (lowercased) path of a key under a parent
(`` (parent ? `${parent}/${key}` : key).toLowerCase() ``). -/
def flatKey (parent key : String) : String :=
  strToLower (if parent = "" then key else parent ++ "/" ++ key)

/-- Entries `Object.entries` of a boxed scalar: a string yields its indexed
characters, a typed array its indexed byte values, other primitives have
no own enumerable properties. -/
def leafEntries : HVal → List (String × HVal)
  | .str s => s.data.enum.map (fun p => (toString p.1, .str (String.mk [p.2])))
  | .bytes bs => bs.enum.map (fun p => (toString p.1, .int p.2))
  | _ => []

/-- The leaf branch of the entries reduce, for entries of a boxed scalar
receiver; such entry values are strings or numbers, so the array/object
branches of the reduce are unreachable for them. -/
def encodeLeafEntry (parent : String) (acc : FlatAcc) (kv : String × HVal) :
    Except String FlatAcc := do
  .ok (store (flatKey parent kv.1) kv.1 acc (← hbEncodeValue kv.2))

/-- The `ao-types` sidecar assembly (hb-encode.js lines 117-124): when the
layer carried types, join them as `k1=t1,k2=t2,…` (keys lowercased, in
insertion order) under `<parent>/ao-types`. -/
def finishLayer (parent : String) (acc : FlatAcc) : List (String × FlatV) :=
  if acc.types.isEmpty then acc.encoded
  else
    let typesKey := if parent = "" then "ao-types" else parent ++ "/ao-types"
    setA typesKey
      (.str (String.intercalate ","
        (acc.types.map (fun kv => strToLower kv.1 ++ "=" ++ kv.2))))
      acc.encoded

mutual

/-- Function `hbEncode` (hb-encode.js lines 83-125): flatten one nesting layer of
`obj` under `parent`, then add the layer's `ao-types` key.
`Object.entries` of an object yields its key/value pairs, of an array its
index/element pairs, of a boxed scalar its indexed fragments, and of a
nullish value throws a `TypeError`. -/
def hbEncode : HVal → String → Except String (List (String × FlatV))
  | .nullv, _ => .error "TypeError: Cannot convert undefined or null to object"
  | .obj kvs, parent => do
      .ok (finishLayer parent (← encodeEntries parent {} kvs))
  | .arr xs, parent => do
      .ok (finishLayer parent (← encodeArrEntries parent {} 0 xs))
  | v, parent => do
      .ok (finishLayer parent (← (leafEntries v).foldlM (encodeLeafEntry parent) {}))

/-- The entries reduce of `hbEncode` (hb-encode.js lines 85-111) over an
object's key/value pairs: skip nullish values; store an empty array as
`empty-list`; recurse into each element of a non-empty array under
`flatK/i`; recurse into a plain object under `flatK` (the nested
`hbEncode` call on an object value is inlined as `encodeEntries` plus
`finishLayer`); store any other value as a leaf. -/
def encodeEntries : String → FlatAcc → List (String × HVal) → Except String FlatAcc
  | _, acc, [] => .ok acc
  | parent, acc, (_, .nullv) :: rest =>
      encodeEntries parent acc rest
  | parent, acc, (key, .arr []) :: rest => do
      encodeEntries parent
        (store (flatKey parent key) key acc (← hbEncodeValue (.arr []))) rest
  | parent, acc, (key, .arr (x :: xs)) :: rest => do
      let enc ← hbEncodeElems (flatKey parent key) 0 acc.encoded (x :: xs)
      encodeEntries parent { acc with encoded := enc } rest
  | parent, acc, (key, .obj kvs) :: rest => do
      let inner ← encodeEntries (flatKey parent key) {} kvs
      encodeEntries parent
        { acc with
            encoded := assignAll acc.encoded (finishLayer (flatKey parent key) inner) }
        rest
  | parent, acc, (key, v) :: rest => do
      encodeEntries parent
        (store (flatKey parent key) key acc (← hbEncodeValue v)) rest

/-- The same entries reduce over an array receiver, whose
`Object.entries` names entries by index. -/
def encodeArrEntries : String → FlatAcc → Nat → List HVal → Except String FlatAcc
  | _, acc, _, [] => .ok acc
  | parent, acc, i, .nullv :: rest =>
      encodeArrEntries parent acc (i + 1) rest
  | parent, acc, i, .arr [] :: rest => do
      encodeArrEntries parent
        (store (flatKey parent (toString i)) (toString i) acc (← hbEncodeValue (.arr [])))
        (i + 1) rest
  | parent, acc, i, .arr (x :: xs) :: rest => do
      let enc ← hbEncodeElems (flatKey parent (toString i)) 0 acc.encoded (x :: xs)
      encodeArrEntries parent { acc with encoded := enc } (i + 1) rest
  | parent, acc, i, .obj kvs :: rest => do
      let inner ← encodeEntries (flatKey parent (toString i)) {} kvs
      encodeArrEntries parent
        { acc with
            encoded := assignAll acc.encoded
              (finishLayer (flatKey parent (toString i)) inner) }
        (i + 1) rest
  | parent, acc, i, v :: rest => do
      encodeArrEntries parent
        (store (flatKey parent (toString i)) (toString i) acc (← hbEncodeValue v))
        (i + 1) rest

/-- Loop `value.forEach((v, i) => Object.assign(acc[0], hbEncode(v,
`${flatK}/${i}`)))`: each element of a non-empty array is itself
flattened under `flatK/i` and merged into the accumulator. -/
def hbEncodeElems : String → Nat → List (String × FlatV) → List HVal →
    Except String (List (String × FlatV))
  | _, _, enc, [] => .ok enc
  | path, i, enc, x :: rest => do
      let m ← hbEncode x (path ++ "/" ++ toString i)
      hbEncodeElems path (i + 1) (assignAll enc m) rest

end

/-- Function `partition(pred, arr)` (hb-encode.js lines 30-36): a reduce pushing
each element onto the matching side, preserving order. -/
def partitionJs {α : Type} (pred : α → Bool) (arr : List α) :
    List α × List α :=
  arr.foldl (fun acc cur =>
    if pred cur then (acc.1 ++ [cur], acc.2) else (acc.1, acc.2 ++ [cur]))
    ([], [])

/-- Lexicographic comparison of character sequences by code unit (the
default `Array.prototype.sort` comparator; keys are ASCII). -/
def charListLe : List Char → List Char → Bool
  | [], _ => true
  | _ :: _, [] => false
  | a :: as, b :: bs =>
      if a.toNat < b.toNat then true
      else if b.toNat < a.toNat then false
      else charListLe as bs

/-- Lexicographic string comparison. -/
def strLe (a b : String) : Bool :=
  charListLe a.data b.data

/-- Sort `Object.keys(flattened).sort()`: lexicographic string sort
(insertion sort; `Array.prototype.sort` agrees with any correct sort on
the distinct keys of an object). -/
def sortKeys (keys : List String) : List String :=
  List.insertionSort (fun a b => strLe a b = true) keys

/-- The header/body partition predicate of `encode` (lines 151-159): a key
goes to the body when it contains `/`, or when
`Buffer.from(flattened[key]).byteLength` — the byte length of the key's
*value* — exceeds 4096. -/
def bodyPred (flattened : List (String × FlatV)) (key : String) : Bool :=
  if key.data.contains '/' then true
  else ((lookupA key flattened).map FlatV.byteLength).getD 0 > 4096

/-- The partition criterion as the claim words it: the flattened path
contains `/` or the *key's* UTF-8 byte length exceeds 4096. -/
def claimBodyPred (key : String) : Bool :=
  key.data.contains '/' || utf8Length key > 4096

/-- Bytes a flattened value contributes to a `Blob`
(strings are UTF-8 encoded). -/
def FlatV.toBytes : FlatV → List Nat
  | .str s => utf8Bytes s
  | .bytes bs => bs

def joinBytes (sep : List Nat) : List (List Nat) → List Nat
  | [] => []
  | [p] => p
  | p :: ps => p ++ sep ++ joinBytes sep ps

/-- Function `boundaryFrom(bodyParts)` (lines 127-135): base64url of the SHA-256
of the parts joined by `\r\n` (no terminating CRLF). -/
def boundaryFrom (bodyParts : List (List Nat)) : String :=
  base64Url (sha256 (joinBytes (utf8Bytes "\r\n") bodyParts))

/-- The result of `encode`: emitted headers (in append order; `Headers`
name canonicalisation is not modelled), plus the multipart pieces when a
body exists. -/
structure HttpMsg where
  headers : List (String × FlatV)
  contentType : Option String
  contentDigest : Option String
  body : Option (List Nat)
  deriving Repr, DecidableEq

/-- One multipart body part for `name`:
`content-disposition: form-data;name="<name>"\r\n\r\n<value>`. -/
def bodyPart (flattened : List (String × FlatV)) (name : String) : List Nat :=
  utf8Bytes ("content-disposition: form-data;name=\x22" ++ name ++ "\x22\r\n\r\n")
    ++ ((lookupA name flattened).getD (.str "")).toBytes

/-- The pure tail of `encode(obj)` (hb-encode.js lines 147-206) applied
to the flattened map: partition the sorted keys into header and body
keys, emit headers, and when body keys exist assemble the multipart body,
boundary, `Content-Type` and `Content-Digest`. -/
def encodeFlattened (flattened : List (String × FlatV)) : HttpMsg :=
  let (bodyKeys, headerKeys) :=
    partitionJs (bodyPred flattened) (sortKeys (flattened.map Prod.fst))
  let headers := headerKeys.map (fun k => (k, (lookupA k flattened).getD (.str "")))
  if bodyKeys.isEmpty then
    { headers := headers, contentType := none, contentDigest := none,
      body := none }
  else
    let bodyParts := bodyKeys.map (bodyPart flattened)
    let boundary := boundaryFrom bodyParts
    let body :=
      (bodyParts.flatMap (fun p =>
        utf8Bytes ("--" ++ boundary ++ "\r\n") ++ p ++ utf8Bytes "\r\n"))
      ++ utf8Bytes ("--" ++ boundary ++ "--")
    let contentDigest := "sha-256=:" ++ base64Std (sha256 body) ++ ":"
    { headers := headers
      contentType := some ("multipart/form-data; boundary=\x22" ++ boundary ++ "\x22")
      contentDigest := some contentDigest
      body := some body }

/-- Function `encode(obj)` (hb-encode.js lines 142-207).  The guard
`if (Object.keys(obj) === 0) return` compares an array against `0` and is
never taken, so it is not modelled.  The commented-out `body-keys` block
is likewise absent. -/
def encode (obj : HVal) : Except String HttpMsg :=
  (hbEncode obj "").map encodeFlattened

/-! ## Theorems -/

/-- Claim C1. If the Wasm handler throws, the worker returns an
`EvaluationOutput` whose `Error` is the thrown value and whose `Memory`
is the pre-invocation Memory, and the invocation stage is a total
function into `EvaluationOutput` (it never propagates the throw);
moreover — as amended — whenever the raw output carries a *truthy*
`Error`, the returned `Memory` is the pre-invocation Memory.  (As
literally stated the claim fails for a present-but-falsy `Error`; see the
counterexample.) -/
theorem worker_error_isolation {Mem : Type} (prev : Option Mem) (err : JsVal)
    (raw : Option (RawOutput Mem)) :
    ((workerEvaluate prev (.error err)).Error = some err ∧
     (workerEvaluate prev (.error err)).Memory = prev) ∧
    (((raw.getD {}).Error.map JsVal.truthy).getD false = true →
      (workerEvaluate prev (.ok raw)).Memory = prev) := by
  refine ⟨⟨rfl, ?_⟩, ?_⟩
  · show (if (((some err).map JsVal.truthy).getD false) = true then prev
          else match (none : Option Mem) with | some m => some m | none => prev) = prev
    split <;> rfl
  · intro h
    show (if (((raw.getD {}).Error.map JsVal.truthy).getD false) = true then prev
          else _) = prev
    rw [if_pos h]

/-- Witness for `worker_error_isolation` at `Mem := Nat`, a thrown string
and a raw output with a truthy error. -/
theorem worker_error_isolation_witness :
    (workerEvaluate (some 5) (.error (.str "boom"))).Memory = some 5 ∧
    (workerEvaluate (some 5)
      (.ok (some ({ Error := some (.str "x"), Memory := some 9 } : RawOutput Nat)))).Memory
      = some 5 :=
  ⟨(worker_error_isolation (some 5) (.str "boom") none).1.2,
   (worker_error_isolation (some 5) (.str "boom")
      (some { Error := some (.str "x"), Memory := some 9 })).2 rfl⟩

/-- Claim C1 counterexample. A raw handler output whose `Error` field is
present but falsy (the empty string): the returned output carries
`Error = ""` — so it "carries an Error" — yet the returned `Memory` is
the handler's Memory (`some 1`), not the pre-invocation `some 0`. -/
theorem worker_falsy_error_memory_counterexample :
    (workerEvaluate (some 0)
      (.ok (some ({ Error := some (.str ""), Memory := some 1 } : RawOutput Nat)))).Error
      = some (.str "") ∧
    (workerEvaluate (some 0)
      (.ok (some ({ Error := some (.str ""), Memory := some 1 } : RawOutput Nat)))).Memory
      = some 1 ∧
    (some 1 : Option Nat) ≠ some 0 :=
  ⟨rfl, rfl, by decide⟩

/-- Claim C8. Normalisation by `mergeOutput`: an absent raw output and absent
fields default to `Messages = []`, `Spawns = []`, `Output = ""`; a
numeric `Output` becomes its decimal string, while string and object
`Output`s pass through unchanged. -/
theorem mergeOutput_normalisation {Mem : Type} (prev : Option Mem)
    (r : RawOutput Mem) :
    ((mergeOutput prev (none : Option (RawOutput Mem))).Messages = [] ∧
     (mergeOutput prev (none : Option (RawOutput Mem))).Spawns = [] ∧
     (mergeOutput prev (none : Option (RawOutput Mem))).Output = .str "") ∧
    (r.Messages = none → (mergeOutput prev (some r)).Messages = []) ∧
    (r.Spawns = none → (mergeOutput prev (some r)).Spawns = []) ∧
    (r.Output = none → (mergeOutput prev (some r)).Output = .str "") ∧
    (∀ n : Int, r.Output = some (.num n) →
      (mergeOutput prev (some r)).Output = .str (toString n)) ∧
    (∀ s : String, r.Output = some (.str s) →
      (mergeOutput prev (some r)).Output = .str s) ∧
    (∀ kvs, r.Output = some (.obj kvs) →
      (mergeOutput prev (some r)).Output = .obj kvs) := by
  refine ⟨⟨rfl, rfl, rfl⟩, ?_, ?_, ?_, ?_, ?_, ?_⟩ <;>
    (intro h; try intro h') <;>
    simp_all [mergeOutput, normalizeOutput]

/-- Witness for `mergeOutput_normalisation` at `Mem := Nat` and a raw
output with a numeric `Output` and missing `Messages`. -/
theorem mergeOutput_normalisation_witness :
    (mergeOutput (some 0) (some ({ Output := some (.num 42) } : RawOutput Nat))).Output
      = .str "42" ∧
    (mergeOutput (some 0) (some ({ Output := some (.num 42) } : RawOutput Nat))).Messages
      = [] :=
  ⟨(mergeOutput_normalisation (some 0) { Output := some (.num 42) }).2.2.2.2.1 42 rfl,
   (mergeOutput_normalisation (some 0) { Output := some (.num 42) }).2.1 rfl⟩

/-- Claim C9. As amended, `hashWasmMemory` fails for every *truthy*
encoding other than `gzip`; under `gzip` the stream is gunzipped and
under an absent encoding it passes through unchanged, in both cases
SHA-256 hashed with the hex digest returned.  (As literally stated the
claim fails for the falsy empty-string encoding, which also passes
through; see the counterexample.) -/
theorem hashWasmMemory_encodings (gunzip : List Nat → List Nat)
    (mem : List Nat) :
    (∀ e : String, e ≠ "" → e ≠ "gzip" →
      hashWasmMemory gunzip mem (some e) =
        .error "Only GZIP encoding of Memory is supported for Process Checkpoints") ∧
    hashWasmMemory gunzip mem (some "gzip") =
      .ok (bytesToHex (sha256 (gunzip mem))) ∧
    hashWasmMemory gunzip mem none = .ok (bytesToHex (sha256 mem)) := by
  refine ⟨?_, ?_, rfl⟩
  · intro e h1 h2
    simp [hashWasmMemory, h1, h2]
  · simp [hashWasmMemory]

/-- Witness for `hashWasmMemory_encodings`: the truthy non-gzip encoding
`"deflate"` is rejected. -/
theorem hashWasmMemory_encodings_witness :
    hashWasmMemory id [] (some "deflate") =
      .error "Only GZIP encoding of Memory is supported for Process Checkpoints" :=
  (hashWasmMemory_encodings id []).1 "deflate" (by decide) (by decide)

/-- Claim C9 counterexample. The empty-string encoding is neither absent
nor `gzip`, yet `hashWasmMemory` does not fail: the guard tests
JavaScript truthiness, and the empty string is falsy, so the memory
passes through and is hashed. -/
theorem hashWasmMemory_empty_encoding_counterexample :
    (some "" ≠ (none : Option String)) ∧
    ((some "" : Option String) ≠ some "gzip") ∧
    hashWasmMemory id [] (some "") =
      .ok "e3b0c44298fc1c149afbf4c8996fb92427ae41e4649b934ca495991b7852b855" :=
  ⟨by decide, by decide, by rfl⟩

/-- Claim C10. The limit predicates use strict inequality: a limit exceeds
the cap iff it is strictly greater, and a limit exactly equal to the cap
is not reported as exceeding. -/
theorem limit_predicates_strict (cap limit : Nat) :
    (doesExceedModuleMaxMemoryWith cap limit = true ↔ cap < limit) ∧
    (doesExceedModuleMaxComputeWith cap limit = true ↔ cap < limit) ∧
    doesExceedModuleMaxMemoryWith cap cap = false ∧
    doesExceedModuleMaxComputeWith cap cap = false := by
  refine ⟨?_, ?_, ?_, ?_⟩ <;>
    simp [doesExceedModuleMaxMemoryWith, doesExceedModuleMaxComputeWith]

/-- Claim C7. Module resolution tries the compiled-module cache, then the
on-disk gzip binary (gunzipped, compiled, and inserted into the cache),
then a gateway `GET <GATEWAY_URL>/raw/<moduleId>` whose body feeds both
the gzip-to-disk sink and the compiler (the compiled module again
inserted into the cache); a non-2xx gateway response fails the load. -/
theorem module_resolution_order {Module : Type} (env : LoaderEnv Module)
    (st : LoaderState Module) (moduleId : String) :
    (∀ m, lookupA moduleId st.moduleCache = some m →
      resolveModule env st moduleId = .ok (m, st, .cachedModule)) ∧
    (∀ gz m, lookupA moduleId st.moduleCache = none →
      lookupA moduleId st.disk = some gz →
      env.compile (env.gunzipF gz) = .ok m →
      resolveModule env st moduleId =
        .ok (m, { st with moduleCache := setA moduleId m st.moduleCache },
             .storedBinary)) ∧
    (∀ status body m, lookupA moduleId st.moduleCache = none →
      maybeStoredBinary env st moduleId = none →
      env.httpGet (env.GATEWAY_URL ++ "/raw/" ++ moduleId) = (status, body) →
      200 ≤ status → status ≤ 299 →
      env.compile body = .ok m → env.diskWriteFails = false →
      resolveModule env st moduleId =
        .ok (m, { moduleCache := setA moduleId m st.moduleCache,
                  disk := setA moduleId (env.gzipF body) st.disk }, .gateway)) ∧
    (∀ status body, lookupA moduleId st.moduleCache = none →
      maybeStoredBinary env st moduleId = none →
      env.httpGet (env.GATEWAY_URL ++ "/raw/" ++ moduleId) = (status, body) →
      ¬(200 ≤ status ∧ status ≤ 299) →
      resolveModule env st moduleId = .error (.fetchError status (bytesToHex body))) := by
  refine ⟨?_, ?_, ?_, ?_⟩
  · intro m h
    simp [resolveModule, h]
  · intro gz m h1 h2 h3
    simp [resolveModule, h1, maybeStoredBinary, h2, h3]
  · intro status body m h1 h2 h3 h4 h5 h6 h7
    simp [resolveModule, h1, h2, loadTransaction, streamTransactionData, h3,
          h4, h5, h6, h7]
  · intro status body h1 h2 h3 h4
    simp [resolveModule, h1, h2, loadTransaction, streamTransactionData, h3, h4]

/-- Witness for `module_resolution_order` at `Module := Nat`: a gateway
404 fails the load, and a cache hit returns the cached module untouched. -/
theorem module_resolution_order_witness :
    resolveModule
      ({ httpGet := fun _ => (404, [7]), compile := fun _ => .ok 5,
         gzipF := id, gunzipF := id, GATEWAY_URL := "gw" } : LoaderEnv Nat)
      { moduleCache := [], disk := [] } "m"
      = .error (.fetchError 404 (bytesToHex [7])) ∧
    resolveModule
      ({ httpGet := fun _ => (404, [7]), compile := fun _ => .ok 5,
         gzipF := id, gunzipF := id, GATEWAY_URL := "gw" } : LoaderEnv Nat)
      { moduleCache := [("m", 3)], disk := [] } "m"
      = .ok (3, { moduleCache := [("m", 3)], disk := [] }, .cachedModule) :=
  ⟨(module_resolution_order _ _ "m").2.2.2 404 [7] rfl rfl rfl (by decide),
   (module_resolution_order _ _ "m").1 3 rfl⟩

/-! ### Codec theorems -/

theorem charListLe_total : ∀ as bs : List Char,
    charListLe as bs = true ∨ charListLe bs as = true
  | [], _ => .inl rfl
  | _ :: _, [] => .inr rfl
  | a :: as, b :: bs => by
      by_cases h1 : a.toNat < b.toNat
      · left; simp [charListLe, h1]
      · by_cases h2 : b.toNat < a.toNat
        · right; simp [charListLe, h2, h1]
        · rcases charListLe_total as bs with h | h
          · left; simpa [charListLe, h1, h2] using h
          · right; simpa [charListLe, h1, h2] using h

theorem charListLe_trans : ∀ as bs cs : List Char,
    charListLe as bs = true → charListLe bs cs = true → charListLe as cs = true
  | [], _, _ => fun _ _ => rfl
  | _ :: _, [], _ => fun h _ => by simp [charListLe] at h
  | _ :: _, _ :: _, [] => fun _ h => by simp [charListLe] at h
  | a :: as, b :: bs, c :: cs => fun h1 h2 => by
      simp only [charListLe] at h1 h2 ⊢
      by_cases hab : a.toNat < b.toNat
      · by_cases hbc : b.toNat < c.toNat
        · simp [show a.toNat < c.toNat by omega]
        · by_cases hcb : c.toNat < b.toNat
          · simp [hbc, hcb] at h2
          · simp [show a.toNat < c.toNat by omega]
      · by_cases hba : b.toNat < a.toNat
        · simp [hab, hba] at h1
        · by_cases hbc : b.toNat < c.toNat
          · simp [show a.toNat < c.toNat by omega]
          · by_cases hcb : c.toNat < b.toNat
            · simp [hbc, hcb] at h2
            · have hac : ¬a.toNat < c.toNat := by omega
              have hca : ¬c.toNat < a.toNat := by omega
              simp only [hab, hba, if_neg, ite_false] at h1
              simp only [hbc, hcb, if_neg, ite_false] at h2
              simp only [hac, hca, if_neg, ite_false]
              exact charListLe_trans as bs cs h1 h2

instance : IsTotal String (fun a b => strLe a b = true) :=
  ⟨fun a b => charListLe_total a.data b.data⟩

instance : IsTrans String (fun a b => strLe a b = true) :=
  ⟨fun a b c => charListLe_trans a.data b.data c.data⟩

/-- The `partition` reduce splits a list into the elements satisfying the
predicate and the rest, preserving order. -/
theorem partitionJs_eq_filter {α : Type} (pred : α → Bool) (arr : List α) :
    partitionJs pred arr = (arr.filter pred, arr.filter (fun x => !pred x)) := by
  suffices h : ∀ acc : List α × List α,
      arr.foldl (fun acc cur =>
        if pred cur then (acc.1 ++ [cur], acc.2) else (acc.1, acc.2 ++ [cur])) acc
      = (acc.1 ++ arr.filter pred, acc.2 ++ arr.filter (fun x => !pred x)) by
    simpa [partitionJs] using h ([], [])
  induction arr with
  | nil => intro acc; simp
  | cons x xs ih =>
      intro acc
      by_cases hx : pred x <;> simp [hx, ih, List.filter_cons]

/-- Claim C4, amended. In `encode`, flattened keys are sorted
lexicographically, and a key lands in the body iff its flattened path
contains `/` or the UTF-8 byte length of its *value* exceeds 4096; every
other key becomes a header.  (The claim's criterion — the *key's* byte
length — is refuted by the counterexample.) -/
theorem partition_sorted_value_length (fl : List (String × FlatV)) (k : String) :
    (partitionJs (bodyPred fl) (sortKeys (fl.map Prod.fst))).1
      = (sortKeys (fl.map Prod.fst)).filter (bodyPred fl) ∧
    (partitionJs (bodyPred fl) (sortKeys (fl.map Prod.fst))).2
      = (sortKeys (fl.map Prod.fst)).filter (fun x => !bodyPred fl x) ∧
    List.Sorted (fun a b => strLe a b = true) (sortKeys (fl.map Prod.fst)) ∧
    (k ∈ (partitionJs (bodyPred fl) (sortKeys (fl.map Prod.fst))).1 ↔
      k ∈ sortKeys (fl.map Prod.fst) ∧ bodyPred fl k = true) ∧
    (k ∈ (partitionJs (bodyPred fl) (sortKeys (fl.map Prod.fst))).2 ↔
      k ∈ sortKeys (fl.map Prod.fst) ∧ bodyPred fl k = false) := by
  refine ⟨?_, ?_, ?_, ?_, ?_⟩
  · rw [partitionJs_eq_filter]
  · rw [partitionJs_eq_filter]
  · exact List.sorted_insertionSort _ _
  · rw [partitionJs_eq_filter]; simp [List.mem_filter]
  · rw [partitionJs_eq_filter]; simp [List.mem_filter]

/-- A 4097-byte key (no `/` in it). -/
def c4LongKey : String :=
  String.mk (List.replicate 4097 'k')

theorem replicate_k_no_slash (n : Nat) :
    ((List.replicate n 'k').contains '/') = false := by
  induction n with
  | zero => rfl
  | succ n ih => simp [List.replicate_succ, List.contains_cons, ih]

theorem utf8Bytes_replicate_k (n : Nat) :
    utf8Bytes (String.mk (List.replicate n 'k')) = List.replicate n 107 := by
  induction n with
  | zero => rfl
  | succ n ih =>
      simp only [utf8Bytes, List.replicate_succ, List.flatMap_cons] at ih ⊢
      rw [ih]
      rfl

theorem toLower_replicate_k (n : Nat) :
    (List.replicate n 'k').map Char.toLower = List.replicate n 'k' := by
  induction n with
  | zero => rfl
  | succ n ih =>
      simp only [List.replicate_succ, List.map_cons, ih]
      rfl

theorem strToLower_c4LongKey : strToLower c4LongKey = c4LongKey := by
  unfold strToLower c4LongKey
  exact congrArg String.mk (toLower_replicate_k 4097)

/-- Claim C4 counterexample. A key of 4097 UTF-8 bytes whose value is the
one-byte string `"x"`: the claim's criterion (key byte length > 4096)
puts it in the body, but `encode` measures the *value's* byte length, so
the key stays out of the body partition and becomes a header. -/
theorem partition_key_length_counterexample :
    claimBodyPred c4LongKey = true ∧
    hbEncode (.obj [(c4LongKey, .str "x")]) "" = .ok [(c4LongKey, FlatV.str "x")] ∧
    bodyPred [(c4LongKey, FlatV.str "x")] c4LongKey = false ∧
    c4LongKey ∉ (partitionJs (bodyPred [(c4LongKey, FlatV.str "x")])
      (sortKeys ([(c4LongKey, FlatV.str "x")].map Prod.fst))).1 ∧
    (partitionJs (bodyPred [(c4LongKey, FlatV.str "x")])
      (sortKeys ([(c4LongKey, FlatV.str "x")].map Prod.fst))).2 = [c4LongKey] := by
  have hdata : c4LongKey.data = List.replicate 4097 'k' := rfl
  have hnoslash : (c4LongKey.data.contains '/') = false := by
    rw [hdata]; exact replicate_k_no_slash 4097
  have hlen : utf8Length c4LongKey = 4097 := by
    unfold utf8Length
    rw [show utf8Bytes c4LongKey = List.replicate 4097 107 from
      utf8Bytes_replicate_k 4097]
    exact List.length_replicate 4097 107
  have hclaim : claimBodyPred c4LongKey = true := by
    unfold claimBodyPred
    rw [hnoslash, hlen]
    rfl
  have hflatKey : flatKey "" c4LongKey = c4LongKey := by
    unfold flatKey
    rw [if_pos rfl]
    exact strToLower_c4LongKey
  have hpred : bodyPred [(c4LongKey, FlatV.str "x")] c4LongKey = false := by
    unfold bodyPred
    rw [hnoslash]
    simp only [lookupA, if_pos rfl, Bool.false_eq_true, ite_false]
    rfl
  have hsort : sortKeys ([(c4LongKey, FlatV.str "x")].map Prod.fst)
      = [c4LongKey] := by
    simp [sortKeys, List.insertionSort]
  refine ⟨hclaim, ?_, hpred, ?_, ?_⟩
  · show (encodeEntries "" {} [(c4LongKey, .str "x")]).map (finishLayer "")
        = .ok [(c4LongKey, FlatV.str "x")]
    have hx : ¬("x".length = 0) := by decide
    simp only [encodeEntries, hbEncodeValue]
    rw [if_neg hx]
    simp [Except.bind, bind, store, FlatV.truthy, setA, hflatKey, finishLayer,
      Except.map]
  · rw [partitionJs_eq_filter, hsort]
    simp [hpred]
  · rw [partitionJs_eq_filter, hsort]
    simp [hpred]

/-- Claim C5, amended. A non-empty sequence at path `a` is flattened by
recursively encoding each element at `a/i`: elements that are mappings
contribute their leaves under `a/0`, `a/1`, …, but a scalar element does
*not* become a leaf at `a/i` — a numeric element contributes nothing at
all, and a string element is exploded into one leaf per character at
`a/i/0`, `a/i/1`, …  (The claim's statement for scalar elements is
refuted by the counterexample.) -/
theorem array_element_flattening (n : Int) (p : String) :
    hbEncode (.int n) p = .ok [] ∧
    hbEncode (.str "xy") "a/0" = .ok [("a/0/0", .str "x"), ("a/0/1", .str "y")] ∧
    hbEncode (.obj [("a", .arr [.obj [("n", .str "x")], .obj [("n", .str "y")]])]) ""
      = .ok [("a/0/n", .str "x"), ("a/1/n", .str "y")] :=
  ⟨rfl, rfl, rfl⟩

/-- Claim C5 counterexample. The sequence `[10, 20]` at path `a`: `encode`
emits *no* leaf at `a/0` or `a/1` (each numeric element is recursively
encoded and has no enumerable entries), so the whole message is empty. -/
theorem array_scalar_leaf_counterexample :
    hbEncode (.obj [("a", .arr [.int 10, .int 20])]) "" = .ok ([] : List (String × FlatV)) ∧
    encode (.obj [("a", .arr [.int 10, .int 20])]) =
      .ok { headers := [], contentType := none, contentDigest := none,
            body := none } :=
  ⟨rfl, rfl⟩

/-- Claim C6, amended. The encoded message — `Content-Digest` included —
is a function of the flattened key→value mapping: any two inputs whose
flattenings have the same sorted key list and the same value at every key
encode identically (in particular, encoding the same object twice is
byte-identical).  However the flattening itself is *not* insertion-order
invariant: a layer's `ao-types` value lists types in key insertion order,
so reordering typed keys changes the digest (see the counterexample). -/
theorem digest_function_of_flattening (x y : HVal)
    (fx fy : List (String × FlatV))
    (hx : hbEncode x "" = .ok fx) (hy : hbEncode y "" = .ok fy)
    (hkeys : sortKeys (fx.map Prod.fst) = sortKeys (fy.map Prod.fst))
    (hlookup : ∀ k, lookupA k fx = lookupA k fy) :
    encode x = encode y := by
  unfold encode
  rw [hx, hy]
  have hpred : bodyPred fx = bodyPred fy := by
    funext k
    unfold bodyPred
    rw [hlookup k]
  have hpart : bodyPart fx = bodyPart fy := by
    funext k
    unfold bodyPart
    rw [hlookup k]
  have hhdr : (fun k => (k, (lookupA k fx).getD (FlatV.str ""))) =
      (fun k => (k, (lookupA k fy).getD (FlatV.str ""))) := by
    funext k
    rw [hlookup k]
  show Except.ok (encodeFlattened fx) = Except.ok (encodeFlattened fy)
  unfold encodeFlattened
  rw [hkeys, hpred, hpart, hhdr]

/-- Witness for `digest_function_of_flattening`: two insertion orders of
an untyped (all-string) object encode identically. -/
theorem digest_function_of_flattening_witness :
    encode (.obj [("a", .str "u"), ("b", .str "v")]) =
      encode (.obj [("b", .str "v"), ("a", .str "u")]) := by
  refine digest_function_of_flattening _ _
    [("a", .str "u"), ("b", .str "v")] [("b", .str "v"), ("a", .str "u")]
    rfl rfl rfl ?_
  intro k
  by_cases h1 : "a" = k
  · subst h1; rfl
  · by_cases h2 : "b" = k
    · subst h2; rfl
    · simp [lookupA, h1, h2]

set_option maxRecDepth 8000 in
/-- Claim C6 counterexample. The inputs `{c: {d: 1, e: 2}}` and `{c: {e: 2, d: 1}}`
are structurally equal and differ only in key insertion order, yet their
`Content-Digest` headers differ: the `c/ao-types` body part reads
`d=integer,e=integer` in one and `e=integer,d=integer` in the other. -/
theorem digest_insertion_order_counterexample :
    (encode (.obj [("c", .obj [("d", .int 1), ("e", .int 2)])])).map HttpMsg.contentDigest
      = .ok (some "sha-256=:9Z7z4VfblEjE9jXg+cHyYZJPzzAK+4aI6RvwVUGvj+c=:") ∧
    (encode (.obj [("c", .obj [("e", .int 2), ("d", .int 1)])])).map HttpMsg.contentDigest
      = .ok (some "sha-256=:wZN9xblfX5VR2s2C0IES3JZXZEZ89vOtk71VUvOZnJI=:") ∧
    ("sha-256=:9Z7z4VfblEjE9jXg+cHyYZJPzzAK+4aI6RvwVUGvj+c=:" : String)
      ≠ "sha-256=:wZN9xblfX5VR2s2C0IES3JZXZEZ89vOtk71VUvOZnJI=:" :=
  ⟨rfl, rfl, by decide⟩

/-! ### Evaluator theorems -/

theorem evalStepExec_seenCron {Mem : Type}
    (H : Option Mem → MsgEnv Mem → Except JsVal (Option (RawOutput Mem)))
    (s2 : EvalState Mem) (m : MsgEnv Mem) :
    (evalStepExec H s2 m).1.seenCron = s2.seenCron := rfl

theorem evalStepExec_saved_iff {Mem : Type}
    (H : Option Mem → MsgEnv Mem → Except JsVal (Option (RawOutput Mem)))
    (s2 : EvalState Mem) (m : MsgEnv Mem) (out : EvaluationOutput Mem)
    (saved : Bool) (h : (evalStepExec H s2 m).2 = .evaluated out saved) :
    saved = true ↔ (m.noSave = false ∧ out.Error = none) := by
  simp only [evalStepExec, StepInfo.evaluated.injEq] at h
  obtain ⟨rfl, rfl⟩ := h
  simp [Option.isNone_iff_eq_none]

theorem evalStepCron_saved_iff {Mem : Type}
    (H : Option Mem → MsgEnv Mem → Except JsVal (Option (RawOutput Mem)))
    (s1 : EvalState Mem) (m : MsgEnv Mem) (out : EvaluationOutput Mem)
    (saved : Bool) (h : (evalStepCron H s1 m).2 = .evaluated out saved) :
    saved = true ↔ (m.noSave = false ∧ out.Error = none) := by
  cases hck : m.cronKey with
  | none =>
      simp only [evalStepCron, hck] at h
      exact evalStepExec_saved_iff H s1 m out saved h
  | some k =>
      by_cases hk : k ∈ s1.seenCron
      · simp [evalStepCron, hck, hk] at h
      · simp only [evalStepCron, hck, hk, if_false, ite_false, if_neg,
          not_false_eq_true] at h
        exact evalStepExec_saved_iff H _ m out saved h

theorem evalStep_saved_iff {Mem : Type} (F : String → Bool)
    (H : Option Mem → MsgEnv Mem → Except JsVal (Option (RawOutput Mem)))
    (s : EvalState Mem) (m : MsgEnv Mem) (out : EvaluationOutput Mem)
    (saved : Bool) (h : (evalStep F H s m).2 = .evaluated out saved) :
    saved = true ↔ (m.noSave = false ∧ out.Error = none) := by
  cases hdh : m.deepHash with
  | none =>
      simp only [evalStep, hdh] at h
      exact evalStepCron_saved_iff H _ m out saved h
  | some h1 =>
      by_cases hF : F h1
      · simp [evalStep, hdh, hF] at h
      · simp only [evalStep, hdh, hF, Bool.false_eq_true, ite_false] at h
        exact evalStepCron_saved_iff H _ m out saved h

theorem evalStepCron_seen_mono {Mem : Type}
    (H : Option Mem → MsgEnv Mem → Except JsVal (Option (RawOutput Mem)))
    (s1 : EvalState Mem) (m : MsgEnv Mem) (k : String × Nat × Nat)
    (hk : k ∈ s1.seenCron) : k ∈ (evalStepCron H s1 m).1.seenCron := by
  cases hck : m.cronKey with
  | none => simpa [evalStepCron, hck, evalStepExec_seenCron] using hk
  | some k' =>
      by_cases hk' : k' ∈ s1.seenCron
      · simpa [evalStepCron, hck, hk'] using hk
      · simp only [evalStepCron, hck]
        rw [if_neg hk']
        rw [evalStepExec_seenCron]
        exact List.mem_cons_of_mem k' hk

theorem evalStep_seen_mono {Mem : Type} (F : String → Bool)
    (H : Option Mem → MsgEnv Mem → Except JsVal (Option (RawOutput Mem)))
    (s : EvalState Mem) (m : MsgEnv Mem) (k : String × Nat × Nat)
    (hk : k ∈ s.seenCron) : k ∈ (evalStep F H s m).1.seenCron := by
  cases hdh : m.deepHash with
  | none =>
      simp only [evalStep, hdh]
      exact evalStepCron_seen_mono H _ m k hk
  | some h1 =>
      by_cases hF : F h1
      · simpa [evalStep, hdh, hF] using hk
      · simp only [evalStep, hdh, hF, Bool.false_eq_true, ite_false]
        exact evalStepCron_seen_mono H _ m k hk

theorem evalStepCron_cron_seen {Mem : Type}
    (H : Option Mem → MsgEnv Mem → Except JsVal (Option (RawOutput Mem)))
    (s1 : EvalState Mem) (m : MsgEnv Mem) (k : String × Nat × Nat)
    (hck : m.cronKey = some k) : k ∈ (evalStepCron H s1 m).1.seenCron := by
  by_cases hk : k ∈ s1.seenCron
  · simp [evalStepCron, hck, hk]
  · simp only [evalStepCron, hck]
    rw [if_neg hk]
    rw [evalStepExec_seenCron]
    exact List.mem_cons_self k s1.seenCron

theorem evalStep_evaluated_cron_seen {Mem : Type} (F : String → Bool)
    (H : Option Mem → MsgEnv Mem → Except JsVal (Option (RawOutput Mem)))
    (s : EvalState Mem) (m : MsgEnv Mem) (k : String × Nat × Nat)
    (hck : m.cronKey = some k) (out : EvaluationOutput Mem) (sv : Bool)
    (h : (evalStep F H s m).2 = .evaluated out sv) :
    k ∈ (evalStep F H s m).1.seenCron := by
  cases hdh : m.deepHash with
  | none =>
      simp only [evalStep, hdh]
      exact evalStepCron_cron_seen H _ m k hck
  | some h1 =>
      by_cases hF : F h1
      · simp [evalStep, hdh, hF] at h
      · simp only [evalStep, hdh, hF, Bool.false_eq_true, ite_false]
        exact evalStepCron_cron_seen H _ m k hck

theorem evalStepCron_seen_skip {Mem : Type}
    (H : Option Mem → MsgEnv Mem → Except JsVal (Option (RawOutput Mem)))
    (s1 : EvalState Mem) (m : MsgEnv Mem) (k : String × Nat × Nat)
    (hck : m.cronKey = some k) (hk : k ∈ s1.seenCron) :
    ((evalStepCron H s1 m).2).isEvaluated = false := by
  simp [evalStepCron, hck, hk, StepInfo.isEvaluated]

theorem evalStep_seen_skip {Mem : Type} (F : String → Bool)
    (H : Option Mem → MsgEnv Mem → Except JsVal (Option (RawOutput Mem)))
    (s : EvalState Mem) (m : MsgEnv Mem) (k : String × Nat × Nat)
    (hck : m.cronKey = some k) (hk : k ∈ s.seenCron) :
    ((evalStep F H s m).2).isEvaluated = false := by
  cases hdh : m.deepHash with
  | none =>
      simp only [evalStep, hdh]
      exact evalStepCron_seen_skip H _ m k hck hk
  | some h1 =>
      by_cases hF : F h1
      · simp [evalStep, hdh, hF, StepInfo.isEvaluated]
      · simp only [evalStep, hdh, hF, Bool.false_eq_true, ite_false]
        exact evalStepCron_seen_skip H _ m k hck hk

theorem evalRun_seen_skip {Mem : Type} (F : String → Bool)
    (H : Option Mem → MsgEnv Mem → Except JsVal (Option (RawOutput Mem)))
    (ms : List (MsgEnv Mem)) :
    ∀ (s : EvalState Mem) (j : Nat) (mj : MsgEnv Mem)
      (k : String × Nat × Nat), k ∈ s.seenCron → ms[j]? = some mj →
      mj.cronKey = some k → ∀ tj, ((evalRun F H s ms).2)[j]? = some tj →
      tj.isEvaluated = false := by
  induction ms with
  | nil => intro s j mj k _ hj; simp at hj
  | cons m0 rest ih =>
      intro s j mj k hk hj hck tj htr
      cases j with
      | zero =>
          obtain rfl : m0 = mj := by simpa using hj
          obtain rfl : (evalStep F H s m0).2 = tj := by simpa [evalRun] using htr
          exact evalStep_seen_skip F H s m0 k hck hk
      | succ j' =>
          exact ih (evalStep F H s m0).1 j' mj k
            (evalStep_seen_mono F H s m0 k hk) (by simpa using hj) hck tj
            (by simpa [evalRun] using htr)


theorem evalRun_cron_dedup {Mem : Type} (F : String → Bool)
    (H : Option Mem → MsgEnv Mem → Except JsVal (Option (RawOutput Mem)))
    (ms : List (MsgEnv Mem)) :
    ∀ (s : EvalState Mem) (i j : Nat)
      (mi mj : MsgEnv Mem) (k : String × Nat × Nat), i < j →
      ms[i]? = some mi → mi.cronKey = some k →
      ms[j]? = some mj → mj.cronKey = some k →
      ∀ ti, ((evalRun F H s ms).2)[i]? = some ti → ti.isEvaluated = true →
      ∀ tj, ((evalRun F H s ms).2)[j]? = some tj → tj.isEvaluated = false := by
  induction ms with
  | nil => intro s i j mi mj k _ hi; simp at hi
  | cons m0 rest ih =>
      intro s i j mi mj k hij hi hcki hj hckj ti hti hev tj htj
      obtain ⟨j', rfl⟩ : ∃ j', j = j' + 1 := ⟨j - 1, by omega⟩
      cases i with
      | zero =>
          obtain rfl : m0 = mi := by simpa using hi
          obtain rfl : (evalStep F H s m0).2 = ti := by simpa [evalRun] using hti
          have hkseen : k ∈ (evalStep F H s m0).1.seenCron := by
            obtain ⟨out, sv, hstep⟩ : ∃ out sv,
                (evalStep F H s m0).2 = .evaluated out sv := by
              rcases hstep : (evalStep F H s m0).2 with h1 | kk | ⟨out, sv⟩
              · rw [hstep] at hev; simp [StepInfo.isEvaluated] at hev
              · rw [hstep] at hev; simp [StepInfo.isEvaluated] at hev
              · exact ⟨out, sv, rfl⟩
            exact evalStep_evaluated_cron_seen F H s m0 k hcki out sv hstep
          exact evalRun_seen_skip F H rest (evalStep F H s m0).1 j' mj k
            hkseen (by simpa using hj) hckj tj (by simpa [evalRun] using htj)
      | succ i' =>
          exact ih (evalStep F H s m0).1 i' j' mi mj k
            (by omega) (by simpa using hi) hcki (by simpa using hj) hckj
            ti (by simpa [evalRun] using hti) hev tj
            (by simpa [evalRun] using htj)

/-- Claim C2 (spec-modelled). In every evaluator run, a message whose step
invoked the handler is persisted (`saveEvaluation` called, i.e. its trace
entry carries `saved = true`) iff its invocation output carries no
`Error` and its `noSave` flag is unset. -/
theorem evaluator_persist_iff {Mem : Type} (F : String → Bool)
    (H : Option Mem → MsgEnv Mem → Except JsVal (Option (RawOutput Mem)))
    (s : EvalState Mem) (ms : List (MsgEnv Mem)) (i : Nat) (m : MsgEnv Mem)
    (out : EvaluationOutput Mem) (saved : Bool)
    (hm : ms[i]? = some m)
    (htr : ((evalRun F H s ms).2)[i]? = some (.evaluated out saved)) :
    saved = true ↔ (m.noSave = false ∧ out.Error = none) := by
  induction ms generalizing s i with
  | nil => simp at hm
  | cons m0 rest ih =>
      cases i with
      | zero =>
          obtain rfl : m0 = m := by simpa using hm
          exact evalStep_saved_iff F H s m0 out saved (by simpa [evalRun] using htr)
      | succ i' =>
          exact ih (evalStep F H s m0).1 i' (by simpa using hm)
            (by simpa [evalRun] using htr)

/-- Claim C3 (spec-modelled). A message whose `deepHash` was already
persisted (`findMessageHashBefore` finds a prior record) is skipped
without invocation and without any change to the evaluator's memory,
saves, cursor, folded output, or cron dedup set; and among cron messages
sharing one `(cron, timestamp, ordinate)` key within a run, if an earlier
one was evaluated every later one is skipped. -/
theorem evaluator_dedup_skip {Mem : Type} (F : String → Bool)
    (H : Option Mem → MsgEnv Mem → Except JsVal (Option (RawOutput Mem)))
    (s : EvalState Mem) (m : MsgEnv Mem) (h' : String)
    (ms : List (MsgEnv Mem)) (i j : Nat) (mi mj : MsgEnv Mem)
    (k : String × Nat × Nat) :
    (m.deepHash = some h' → F h' = true →
      (evalStep F H s m).2 = .skippedDeepHash h' ∧
      (evalStep F H s m).1.Memory = s.Memory ∧
      (evalStep F H s m).1.saves = s.saves ∧
      (evalStep F H s m).1.last = s.last ∧
      (evalStep F H s m).1.output = s.output ∧
      (evalStep F H s m).1.seenCron = s.seenCron) ∧
    (i < j → ms[i]? = some mi → mi.cronKey = some k →
      ms[j]? = some mj → mj.cronKey = some k →
      ∀ ti, ((evalRun F H s ms).2)[i]? = some ti → ti.isEvaluated = true →
      ∀ tj, ((evalRun F H s ms).2)[j]? = some tj → tj.isEvaluated = false) := by
  constructor
  · intro hdh hF
    refine ⟨?_, ?_, ?_, ?_, ?_, ?_⟩ <;> simp [evalStep, hdh, hF]
  · intro hij hi hcki hj hckj
    exact evalRun_cron_dedup F H ms s i j mi mj k hij hi hcki hj hckj

/-- Concrete witness inputs for the evaluator theorems. -/
def wHashFound : String → Bool := fun _ => false

def wHandler : Option Nat → MsgEnv Nat → Except JsVal (Option (RawOutput Nat)) :=
  fun _ _ => .ok (some { Memory := some 0 })

def wS0 : EvalState Nat := { Memory := none }

def wMsgs : List (MsgEnv Nat) :=
  [{ ordinate := 0, noSave := true, Timestamp := 100, blockHeight := 10 },
   { ordinate := 1, Timestamp := 101, blockHeight := 11 },
   { ordinate := 2, Timestamp := 102, blockHeight := 12 }]

def wOut : EvaluationOutput Nat :=
  { Memory := some 0, Error := none, Messages := [], Spawns := [],
    Output := .str "", GasUsed := none }

def wCronMsg : MsgEnv Nat :=
  { ordinate := 2, cron := some "1-20-minutes", Timestamp := 200,
    blockHeight := 20 }

def wDeepMsg : MsgEnv Nat :=
  { ordinate := 1, deepHash := some "dh-1", Timestamp := 50, blockHeight := 5 }

/-- Witness for `evaluator_persist_iff`: a stream of three messages whose
first is marked `noSave` yields exactly two persisted evaluations, and
the instantiated iff for the second (persisted) message. -/
theorem evaluator_persist_iff_witness :
    (evalRun wHashFound wHandler wS0 wMsgs).1.saves.length = 2 ∧
    (true = true ↔ ((false : Bool) = false ∧ (none : Option JsVal) = none)) :=
  ⟨rfl,
   evaluator_persist_iff wHashFound wHandler wS0 wMsgs 1
     { ordinate := 1, Timestamp := 101, blockHeight := 11 } wOut true rfl rfl⟩

/-- Witness for `evaluator_dedup_skip`: a deepHash hit is skipped with no
state change, and the duplicate of an evaluated cron message is not
evaluated. -/
theorem evaluator_dedup_skip_witness :
    ((evalStep (fun _ => true) wHandler wS0 wDeepMsg).2
        = .skippedDeepHash "dh-1" ∧
      (evalStep (fun _ => true) wHandler wS0 wDeepMsg).1.Memory = wS0.Memory ∧
      (evalStep (fun _ => true) wHandler wS0 wDeepMsg).1.saves = wS0.saves ∧
      (evalStep (fun _ => true) wHandler wS0 wDeepMsg).1.last = wS0.last ∧
      (evalStep (fun _ => true) wHandler wS0 wDeepMsg).1.output = wS0.output ∧
      (evalStep (fun _ => true) wHandler wS0 wDeepMsg).1.seenCron = wS0.seenCron) ∧
    (StepInfo.skippedCron ("1-20-minutes", 200, 2) : StepInfo Nat).isEvaluated
      = false :=
  ⟨(evaluator_dedup_skip (fun _ => true) wHandler wS0 wDeepMsg "dh-1"
      [] 0 0 wDeepMsg wDeepMsg ("", 0, 0)).1 rfl rfl,
   (evaluator_dedup_skip wHashFound wHandler wS0 wCronMsg "x"
      [wCronMsg, wCronMsg] 0 1 wCronMsg wCronMsg ("1-20-minutes", 200, 2)).2
     (by decide) rfl rfl rfl rfl (.evaluated wOut true) rfl rfl
     (.skippedCron ("1-20-minutes", 200, 2)) rfl⟩

end AoSpec

